import Mathlib

/-!
Verification of the gitsum diff-checker core (command synthesizer, diff
section filter, status classifier, output formatter), shallowly embedded
from the TypeScript sources.  JS strings are modelled as `String` where
only concatenation and simple slicing occur, and as `List Char` where the
code scans character by character.
-/

namespace Gitsum

/-- The option bag accepted by `GitDiffChecker.checkDiff` (interface
`GitDiffOptions`).  In JS, absent boolean flags are `undefined`, which is
falsy, so they are modelled as `Bool` with default `false`; string options
are `Option String` (`none` = `undefined`); `context` is `Option Int`
(`none` = `undefined`). -/
structure GitDiffOptions where
  staged : Bool := false
  unstaged : Bool := false
  all : Bool := false
  branch : Option String := none
  commit : Option String := none
  file : Option String := none
  context : Option Int := none
  color : Bool := true
  wordDiff : Bool := false

/-- JS truthiness of an optional string: `undefined` and `""` are falsy. -/
def optTruthy : Option String → Bool
  | none => false
  | some s => !(s == "")

/-- The six outcomes of the mode-selection if/else chain in `checkDiff`. -/
inductive DiffMode
  | staged
  | unstaged
  | all
  | branchCompare
  | commitCompare
  | workingTree
  deriving DecidableEq

/-- Which branch of the if/else chain at the top of `checkDiff`
(part_000 lines 183-198) is taken. -/
def modeOf (o : GitDiffOptions) : DiffMode :=
  if o.staged then .staged
  else if o.unstaged then .unstaged
  else if o.all then .all
  else if optTruthy o.branch then .branchCompare
  else if optTruthy o.commit then .commitCompare
  else .workingTree

/-- The mode-resolution if/else chain of `checkDiff` (part_000 lines
179-198): the base diff command and the human-readable description. -/
def modeResolve (o : GitDiffOptions) : String × String :=
  if o.staged then ("git diff --cached", "Staged changes")
  else if o.unstaged then ("git diff", "Unstaged changes")
  else if o.all then ("git diff HEAD", "All changes (staged + unstaged)")
  else if optTruthy o.branch then
    ("git diff " ++ o.branch.getD "", "Changes compared to " ++ o.branch.getD "")
  else if optTruthy o.commit then
    ("git diff " ++ o.commit.getD "", "Changes compared to " ++ o.commit.getD "")
  else ("git diff", "Working directory changes")

/-- The full command synthesis of `checkDiff` (part_000 lines 179-216):
mode resolution, then `-U<context>` when `options.context !== undefined`,
then `--word-diff=color` when requested, then the unconditional
`--ignore-submodules=all`, then ` -- <file>` when a file filter is given. -/
def buildDiffCommand (o : GitDiffOptions) : String :=
  let cmd := (modeResolve o).1
  let cmd := match o.context with
    | some n => cmd ++ " -U" ++ toString n
    | none => cmd
  let cmd := if o.wordDiff then cmd ++ " --word-diff=color" else cmd
  let cmd := cmd ++ " --ignore-submodules=all"
  if optTruthy o.file then cmd ++ " -- " ++ (o.file.getD "") else cmd

/-- JS whitespace (`StrWhiteSpace` for `parseInt`, and `\s` for regexes):
space, tab, line feed, carriage return, vertical tab, form feed
(unicode space classes omitted: none can appear in the inputs at hand). -/
def jsWhitespace (c : Char) : Bool :=
  c == ' ' || c == '\t' || c == '\n' || c == '\r' || c == '\x0b' || c == '\x0c'

/-- Decimal digit value, `none` for a non-digit. -/
def digitVal (c : Char) : Option Nat :=
  if '0' ≤ c ∧ c ≤ '9' then some (c.toNat - '0'.toNat) else none

/-- Accumulate the longest leading run of decimal digits. -/
def parseDigits : List Char → Nat → Nat
  | [], acc => acc
  | c :: rest, acc =>
    match digitVal c with
    | some d => parseDigits rest (acc * 10 + d)
    | none => acc

/-- The JS builtin `parseInt` with no radix argument on a decimal string:
skip leading whitespace, optional sign, then the longest run of leading
digits; `none` models `NaN` (no leading digit). -/
def parseIntJS (s : String) : Option Int :=
  let core : List Char → Int → Option Int := fun l sign =>
    match l with
    | c :: _ => if (digitVal c).isSome then some (sign * (parseDigits l 0 : Int)) else none
    | [] => none
  match s.toList.dropWhile jsWhitespace with
  | '-' :: rest => core rest (-1)
  | '+' :: rest => core rest 1
  | t => core t 1

/-- The `diff` command action (part_000 lines 367-374):
`const context = parseInt(options.context); ... isNaN(context) ? 3 : context`. -/
def resolveContext (s : String) : Int :=
  match parseIntJS s with
  | none => 3
  | some n => n

/-- Whether `pat` is a leading segment of `l` (JS `String.startsWith` on the
character-list model). -/
def startsWithChars : List Char → List Char → Bool
  | [], _ => true
  | _ :: _, [] => false
  | p :: ps, c :: cs => p == c && startsWithChars ps cs

/-- The test `line.startsWith("diff --git")`, the file-header test of the filter
loop (part_000 line 103). -/
def isHeader (l : List Char) : Bool :=
  startsWithChars "diff --git".toList l

/-- The "no file" sentinel compared against the destination path
(part_000 line 111). -/
def devNull : List Char := "/dev/null".toList

/-- Tail of the header regex after group 1: `\s+b\/(.+?)$`.  Only the
maximal whitespace run can be followed by the literal `b` (a shorter run
leaves a whitespace character where `b` is required), then group 2 is the
whole remainder, nonempty and free of line breaks (`.` does not match a
line break and `$` anchors at the end). -/
def tryCont (l : List Char) : Option (List Char) :=
  let ws := l.takeWhile jsWhitespace
  let rest := l.dropWhile jsWhitespace
  if ws.isEmpty then none
  else if startsWithChars ['b', '/'] rest then
    let g2 := rest.drop 2
    if g2.isEmpty || g2.contains '\n' then none else some g2
  else none

/-- The non-greedy group 1 `(.+?)` of the header regex: grow one
character at a time (never across a line break, which `.` cannot match)
until the tail `\s+b\/(.+?)$` matches the remainder. -/
def findSplit (acc : List Char) : List Char → Option (List Char × List Char)
  | [] => none
  | c :: rest =>
    if c = '\n' then none
    else
      match tryCont rest with
      | some g2 => some (acc ++ [c], g2)
      | none => findSplit (acc ++ [c]) rest

/-- The regex query `line.match(/diff --git a\/(.+?)\s+b\/(.+?)$/)` (part_000 line 106):
try each start position left to right; at each, match the literal
`diff --git a/` (13 characters) and then groups 1 and 2. -/
def matchHeader : List Char → Option (List Char × List Char)
  | [] => none
  | c :: rest =>
    match
      (if startsWithChars "diff --git a/".toList (c :: rest)
       then findSplit [] ((c :: rest).drop 13)
       else none) with
    | some r => some r
    | none => matchHeader rest

/-- The inner skip loop of the filter (part_000 lines 117-121): advance
past every line up to, but not including, the next `diff --git` line. -/
def dropSection (ls : List (List Char)) : List (List Char) :=
  ls.dropWhile (fun l => !isHeader l)

/-- The scanning loop of `filterIgnoredFilesFromDiff` (part_000 lines
97-133) over the list of lines, with the `skipCurrentFile` flag as
state.  On a header line whose regex matches, the effective path
(destination unless it is `/dev/null`, else source) is queried; an
ignored section is skipped up to the next header, which is then
reprocessed with the flag still set; a header line that does not match
the regex leaves the flag unchanged; any line reached with the flag set
is dropped, all other lines are emitted in order. -/
def filterLoop (isIgn : List Char → Bool) (skip : Bool)
    (ls : List (List Char)) : List (List Char) :=
  match ls with
  | [] => []
  | l :: rest =>
    if isHeader l then
      match matchHeader l with
      | some (oldPath, newPath) =>
        let filePath := if newPath ≠ devNull then newPath else oldPath
        if isIgn filePath then
          filterLoop isIgn true (dropSection rest)
        else
          l :: filterLoop isIgn false rest
      | none =>
        if skip then filterLoop isIgn skip rest
        else l :: filterLoop isIgn skip rest
    else
      if skip then filterLoop isIgn skip rest
      else l :: filterLoop isIgn skip rest
termination_by ls.length
decreasing_by
  all_goals simp only [dropSection, List.length_cons]
  · exact Nat.lt_succ_of_le (List.dropWhile_sublist _).length_le
  all_goals exact Nat.lt_succ_self _

/-- JS `diff.split("\n")` on the character-list model.  The result is
never empty, and never contains a line break. -/
def splitLines : List Char → List (List Char)
  | [] => [[]]
  | c :: rest =>
    if c = '\n' then [] :: splitLines rest
    else
      match splitLines rest with
      | l :: ls => (c :: l) :: ls
      | [] => [[c]]

/-- JS `lines.join("\n")`. -/
def joinLines : List (List Char) → List Char
  | [] => []
  | [l] => l
  | l :: ls => l ++ '\n' :: joinLines ls

/-- The method `GitDiffChecker.filterIgnoredFilesFromDiff` (part_000 lines 94-136),
with the per-path `git check-ignore` query abstracted as the predicate
`isIgn`. -/
def filterIgnoredFilesFromDiff (isIgn : List Char → Bool) (diff : List Char) : List Char :=
  joinLines (filterLoop isIgn false (splitLines diff))

/-- The effective path of a line, when it is a file-section header the
filter can parse: destination path unless it is `/dev/null`, else the
source path (part_000 lines 103-112). -/
def effectivePath (l : List Char) : Option (List Char) :=
  if isHeader l then
    match matchHeader l with
    | some (oldPath, newPath) =>
      some (if newPath ≠ devNull then newPath else oldPath)
    | none => none
  else none

/-- Number of file sections of a raw diff: the number of its lines that
begin with the `diff --git` marker. -/
def countSections (s : List Char) : Nat :=
  ((splitLines s).filter (fun l => isHeader l)).length

/-- No line of `s` is a parseable file-section header whose effective
path is ignored. -/
def noIgnoredSection (isIgn : List Char → Bool) (s : List Char) : Bool :=
  (splitLines s).all fun l =>
    match effectivePath l with
    | some fp => !isIgn fp
    | none => true

/-- The five `chalk` color functions used by the formatter, kept
abstract: they are an external collaborator producing terminal escape
sequences. -/
structure ColorFns where
  green : List Char → List Char
  red : List Char → List Char
  blue : List Char → List Char
  yellow : List Char → List Char
  gray : List Char → List Char

/-- The per-line coloring rule of the formatter (part_000 lines 148-161,
identical in cli.ts lines 59-72): additions green, deletions red, hunk
headers blue, `diff --git` file headers yellow, `index` metadata gray,
anything else untouched. -/
def colorizeLine (cf : ColorFns) (line : List Char) : List Char :=
  if startsWithChars ['+'] line then cf.green line
  else if startsWithChars ['-'] line then cf.red line
  else if startsWithChars ['@', '@'] line then cf.blue line
  else if isHeader line then cf.yellow line
  else if startsWithChars "index".toList line then cf.gray line
  else line

/-- The rendering stage shared by both builds: if `colorize` is false
return the text unchanged, otherwise color it line by line (part_000
lines 142-162 operate this way on the filtered diff; cli.ts lines 53-73
on the formatter argument itself). -/
def renderDiff (cf : ColorFns) (color : Bool) (d : List Char) : List Char :=
  if !color then d
  else joinLines ((splitLines d).map (colorizeLine cf))

/-- The method `GitDiffChecker.formatDiffOutput` of the root build (part_000 lines
138-163): filter the ignored sections first, then render. -/
def formatDiffOutput (cf : ColorFns) (isIgn : List Char → Bool)
    (o : GitDiffOptions) (diff : List Char) : List Char :=
  renderDiff cf o.color (filterIgnoredFilesFromDiff isIgn diff)

/-- The method `GitDiffChecker.formatDiffOutput` of the secondary CLI build
(cli.ts lines 52-74): no filtering, rendering only. -/
def cliFormatDiffOutput (cf : ColorFns) (o : GitDiffOptions) (diff : List Char) : List Char :=
  if !o.color then diff
  else joinLines ((splitLines diff).map (colorizeLine cf))

/-- The six counters of the file-status summary (part_000 lines
236-241). -/
structure ChangeCounts where
  modified : Nat
  added : Nat
  deleted : Nat
  renamed : Nat
  unmerged : Nat
  untracked : Nat
  deriving DecidableEq

/-- All counters start at zero. -/
def zeroCounts : ChangeCounts := ⟨0, 0, 0, 0, 0, 0⟩

/-- JS `status.includes(c)`: the two-character code contains the state
character (substring search with a single-character needle, i.e.
membership among the characters). -/
def statusIncludes (st : String) (c : Char) : Bool := st.toList.contains c

/-- The six categories reported by the status summary. -/
inductive StatusCategory
  | modified | added | deleted | renamed | unmerged | untracked
  deriving DecidableEq

/-- The category and filename the status summary reports for one
short-status line (part_000 lines 243-265): `status = line.substring(0,2)`,
`filename = line.substring(3)`, then an if/else-if chain testing
`status.includes(...)` for M, A, D, R, U and finally `status === "??"`. -/
def classifyStatusLine (line : String) : Option (StatusCategory × String) :=
  let st := line.take 2
  let filename := line.drop 3
  if statusIncludes st 'M' then some (.modified, filename)
  else if statusIncludes st 'A' then some (.added, filename)
  else if statusIncludes st 'D' then some (.deleted, filename)
  else if statusIncludes st 'R' then some (.renamed, filename)
  else if statusIncludes st 'U' then some (.unmerged, filename)
  else if st == "??" then some (.untracked, filename)
  else none

/-- The counter updates performed by the same if/else-if chain for one
line (part_000 lines 243-266). -/
def tallyLine (cc : ChangeCounts) (line : String) : ChangeCounts :=
  let st := line.take 2
  if statusIncludes st 'M' then { cc with modified := cc.modified + 1 }
  else if statusIncludes st 'A' then { cc with added := cc.added + 1 }
  else if statusIncludes st 'D' then { cc with deleted := cc.deleted + 1 }
  else if statusIncludes st 'R' then { cc with renamed := cc.renamed + 1 }
  else if statusIncludes st 'U' then { cc with unmerged := cc.unmerged + 1 }
  else if st == "??" then { cc with untracked := cc.untracked + 1 }
  else cc

/-- The whole summary tally: fold the per-line updates over the status
lines (part_000 line 243). -/
def tally (lines : List String) : ChangeCounts :=
  lines.foldl tallyLine zeroCounts

/-- How many of the six summary categories a tally has touched. -/
def countCategories (cc : ChangeCounts) : Nat :=
  (if cc.modified ≠ 0 then 1 else 0) + (if cc.added ≠ 0 then 1 else 0)
    + (if cc.deleted ≠ 0 then 1 else 0) + (if cc.renamed ≠ 0 then 1 else 0)
    + (if cc.unmerged ≠ 0 then 1 else 0) + (if cc.untracked ≠ 0 then 1 else 0)

end Gitsum

namespace Gitsum

/-- C1: For every combination of diff options, exactly one mode branch of
`checkDiff` is selected, following the strict precedence
staged > unstaged > all > branch > commit > default working-tree; in
particular `{staged := true, all := true}` resolves to the description
"Staged changes", never "All changes (staged + unstaged)".  The six
iffs below have mutually exclusive, jointly exhaustive right-hand sides,
so exactly one mode is active for every option bag. -/
theorem mode_selection_precedence :
    (∀ o : GitDiffOptions,
        (modeOf o = DiffMode.staged ↔ o.staged = true)
      ∧ (modeOf o = DiffMode.unstaged ↔ o.staged = false ∧ o.unstaged = true)
      ∧ (modeOf o = DiffMode.all ↔
          o.staged = false ∧ o.unstaged = false ∧ o.all = true)
      ∧ (modeOf o = DiffMode.branchCompare ↔
          o.staged = false ∧ o.unstaged = false ∧ o.all = false ∧
          optTruthy o.branch = true)
      ∧ (modeOf o = DiffMode.commitCompare ↔
          o.staged = false ∧ o.unstaged = false ∧ o.all = false ∧
          optTruthy o.branch = false ∧ optTruthy o.commit = true)
      ∧ (modeOf o = DiffMode.workingTree ↔
          o.staged = false ∧ o.unstaged = false ∧ o.all = false ∧
          optTruthy o.branch = false ∧ optTruthy o.commit = false))
    ∧ (modeResolve { staged := true, all := true }).2 = "Staged changes"
    ∧ (modeResolve { staged := true, all := true }).2 ≠ "All changes (staged + unstaged)" := by
  refine ⟨fun o => ?_, by decide, by decide⟩
  cases hs : o.staged <;> cases hu : o.unstaged <;> cases ha : o.all <;>
    cases hb : optTruthy o.branch <;> cases hc : optTruthy o.commit <;>
    simp [modeOf, hs, hu, ha, hb, hc]

/-- C5: after mode resolution, the synthesized command appends, in order:
the context-line count (whenever a resolved context value is present,
which the CLI action always supplies), the word-diff flag only if
requested, the submodule-suppressing flag unconditionally, and the path
restriction only if a file filter was supplied. -/
theorem command_append_order (o : GitDiffOptions) (n : Int) (h : o.context = some n) :
    buildDiffCommand o =
      (modeResolve o).1 ++ (" -U" ++ toString n)
        ++ (if o.wordDiff then " --word-diff=color" else "")
        ++ " --ignore-submodules=all"
        ++ (if optTruthy o.file then " -- " ++ (o.file.getD "") else "") := by
  unfold buildDiffCommand
  rw [h]
  cases hw : o.wordDiff <;> cases hf : optTruthy o.file <;>
    simp [hw, hf, ← String.append_assoc]

/-- Evaluation of C5 at a concrete option bag exercising every appended
component. -/
theorem command_append_order_witness :
    buildDiffCommand
        { context := some 5, wordDiff := true, file := some "a.ts" } =
      (modeResolve { context := some 5, wordDiff := true, file := some "a.ts" }).1
        ++ (" -U" ++ toString (5 : Int))
        ++ (if ({ context := some 5, wordDiff := true, file := some "a.ts" } : GitDiffOptions).wordDiff
            then " --word-diff=color" else "")
        ++ " --ignore-submodules=all"
        ++ (if optTruthy ({ context := some 5, wordDiff := true, file := some "a.ts" } : GitDiffOptions).file
            then " -- " ++ (({ context := some 5, wordDiff := true, file := some "a.ts" } : GitDiffOptions).file.getD "")
            else "") :=
  command_append_order { context := some 5, wordDiff := true, file := some "a.ts" } 5 rfl

/-- Unfolding: the filter loop on the empty line list. -/
theorem filterLoop_nil (isIgn : List Char → Bool) (skip : Bool) :
    filterLoop isIgn skip [] = [] := by
  rw [filterLoop.eq_def]

/-- Unfolding: the filter loop on a header line the regex parses. -/
theorem filterLoop_cons_header_some (isIgn : List Char → Bool) (skip : Bool)
    (l : List Char) (rest : List (List Char)) (o n : List Char)
    (hh : isHeader l = true) (hm : matchHeader l = some (o, n)) :
    filterLoop isIgn skip (l :: rest) =
      if isIgn (if n ≠ devNull then n else o) then
        filterLoop isIgn true (dropSection rest)
      else l :: filterLoop isIgn false rest := by
  rw [filterLoop.eq_def]
  simp only [hh, hm, if_true]

/-- Unfolding: the filter loop on a header line the regex cannot parse. -/
theorem filterLoop_cons_header_none (isIgn : List Char → Bool) (skip : Bool)
    (l : List Char) (rest : List (List Char))
    (hh : isHeader l = true) (hm : matchHeader l = none) :
    filterLoop isIgn skip (l :: rest) =
      if skip then filterLoop isIgn skip rest
      else l :: filterLoop isIgn skip rest := by
  rw [filterLoop.eq_def]
  simp only [hh, hm, if_true]

/-- Unfolding: the filter loop on a non-header line. -/
theorem filterLoop_cons_nonheader (isIgn : List Char → Bool) (skip : Bool)
    (l : List Char) (rest : List (List Char)) (hh : isHeader l = false) :
    filterLoop isIgn skip (l :: rest) =
      if skip then filterLoop isIgn skip rest
      else l :: filterLoop isIgn skip rest := by
  rw [filterLoop.eq_def]
  simp only [hh, Bool.false_eq_true, if_false]

/-- Skipping to the next header only removes lines. -/
theorem dropSection_sublist (ls : List (List Char)) :
    List.Sublist (dropSection ls) ls :=
  List.dropWhile_sublist _

/-- The filter loop only ever removes lines: its output is a sublist of
its input. -/
theorem filterLoop_sublist (isIgn : List Char → Bool) (skip : Bool)
    (ls : List (List Char)) : List.Sublist (filterLoop isIgn skip ls) ls := by
  induction skip, ls using filterLoop.induct isIgn with
  | case1 skip => rw [filterLoop_nil]
  | case2 skip l rest hh o n hm fp hign ih =>
    have hign' : isIgn (if n ≠ devNull then n else o) = true := hign
    rw [filterLoop_cons_header_some isIgn skip l rest o n hh hm, if_pos hign']
    exact (ih.trans (dropSection_sublist rest)).cons l
  | case3 skip l rest hh o n hm fp hnign ih =>
    have hign' : ¬ isIgn (if n ≠ devNull then n else o) = true := hnign
    rw [filterLoop_cons_header_some isIgn skip l rest o n hh hm, if_neg hign']
    exact ih.cons₂ l
  | case4 l rest hh hm ih =>
    rw [filterLoop_cons_header_none isIgn true l rest hh hm, if_pos rfl]
    exact ih.cons l
  | case5 skip l rest hh hm hskip ih =>
    rw [filterLoop_cons_header_none isIgn skip l rest hh hm, if_neg hskip]
    exact ih.cons₂ l
  | case6 l rest hh ih =>
    rw [filterLoop_cons_nonheader isIgn true l rest (by simpa using hh), if_pos rfl]
    exact ih.cons l
  | case7 skip l rest hh hskip ih =>
    rw [filterLoop_cons_nonheader isIgn skip l rest (by simpa using hh), if_neg hskip]
    exact ih.cons₂ l

/-- No line kept by the filter loop is a parseable header with an
ignored effective path. -/
theorem mem_filterLoop_not_ignored (isIgn : List Char → Bool) (skip : Bool)
    (ls : List (List Char)) :
    ∀ l ∈ filterLoop isIgn skip ls, ∀ fp, effectivePath l = some fp → isIgn fp = false := by
  induction skip, ls using filterLoop.induct isIgn with
  | case1 skip => rw [filterLoop_nil]; intro l hl; simp at hl
  | case2 skip l rest hh o n hm fp hign ih =>
    have hign' : isIgn (if n ≠ devNull then n else o) = true := hign
    rw [filterLoop_cons_header_some isIgn skip l rest o n hh hm, if_pos hign']
    exact ih
  | case3 skip l rest hh o n hm fp hnign ih =>
    have hign' : ¬ isIgn (if n ≠ devNull then n else o) = true := hnign
    rw [filterLoop_cons_header_some isIgn skip l rest o n hh hm, if_neg hign']
    intro x hx p hp
    rcases List.mem_cons.mp hx with hxl | hxr
    · subst hxl
      rw [effectivePath, if_pos hh, hm] at hp
      have hp' : (if n ≠ devNull then n else o) = p := Option.some.inj hp
      subst hp'
      simpa using hign'
    · exact ih x hxr p hp
  | case4 l rest hh hm ih =>
    rw [filterLoop_cons_header_none isIgn true l rest hh hm, if_pos rfl]
    exact ih
  | case5 skip l rest hh hm hskip ih =>
    rw [filterLoop_cons_header_none isIgn skip l rest hh hm, if_neg hskip]
    intro x hx p hp
    rcases List.mem_cons.mp hx with hxl | hxr
    · subst hxl
      rw [effectivePath, if_pos hh, hm] at hp
      exact absurd hp (by simp)
    · exact ih x hxr p hp
  | case6 l rest hh ih =>
    rw [filterLoop_cons_nonheader isIgn true l rest (by simpa using hh), if_pos rfl]
    exact ih
  | case7 skip l rest hh hskip ih =>
    rw [filterLoop_cons_nonheader isIgn skip l rest (by simpa using hh), if_neg hskip]
    intro x hx p hp
    rcases List.mem_cons.mp hx with hxl | hxr
    · subst hxl
      rw [effectivePath, if_neg (by simpa using hh)] at hp
      exact absurd hp (by simp)
    · exact ih x hxr p hp

/-- Splitting never yields the empty list of lines. -/
theorem splitLines_ne_nil (s : List Char) : splitLines s ≠ [] := by
  induction s with
  | nil => simp [splitLines]
  | cons c rest ih =>
    by_cases h : c = '\n'
    · simp [splitLines, h]
    · cases hs : splitLines rest with
      | nil => simp [splitLines, h, hs]
      | cons a t => simp [splitLines, h, hs]

/-- Lines produced by splitting contain no line break. -/
theorem not_newline_mem_splitLines (s : List Char) :
    ∀ l ∈ splitLines s, '\n' ∉ l := by
  induction s with
  | nil => intro l hl; simp [splitLines] at hl; simp [hl]
  | cons c rest ih =>
    intro l hl
    by_cases h : c = '\n'
    · rw [splitLines, if_pos h] at hl
      rcases List.mem_cons.mp hl with h1 | h2
      · simp [h1]
      · exact ih l h2
    · rw [splitLines, if_neg h] at hl
      cases hs : splitLines rest with
      | nil => exact absurd hs (splitLines_ne_nil rest)
      | cons a t =>
        rw [hs] at hl
        rcases List.mem_cons.mp hl with h1 | h2
        · subst h1
          intro hmem
          rcases List.mem_cons.mp hmem with h3 | h4
          · exact h h3.symm
          · exact ih a (hs ▸ List.mem_cons_self a t) h4
        · exact ih l (hs ▸ List.mem_cons_of_mem a h2)

/-- A break-free text splits into the single line it is. -/
theorem splitLines_eq_singleton (l : List Char) (h : '\n' ∉ l) :
    splitLines l = [l] := by
  induction l with
  | nil => rfl
  | cons c rest ih =>
    have hc : ¬ c = '\n' := fun hc => h (hc ▸ List.mem_cons_self c rest)
    have hr : splitLines rest = [rest] := ih (fun hm => h (List.mem_cons_of_mem c hm))
    rw [splitLines, if_neg hc, hr]

/-- Splitting off a leading break-free line. -/
theorem splitLines_append_cons (l t : List Char) (h : '\n' ∉ l) :
    splitLines (l ++ '\n' :: t) = l :: splitLines t := by
  induction l with
  | nil => simp [splitLines]
  | cons c rest ih =>
    have hc : ¬ c = '\n' := fun hc => h (hc ▸ List.mem_cons_self c rest)
    have hr := ih (fun hm => h (List.mem_cons_of_mem c hm))
    rw [List.cons_append, splitLines, if_neg hc, hr]

/-- Unfolding: joining a single line. -/
theorem joinLines_singleton (l : List Char) : joinLines [l] = l := rfl

/-- Unfolding: joining at least two lines. -/
theorem joinLines_cons_cons (l l2 : List Char) (ls : List (List Char)) :
    joinLines (l :: l2 :: ls) = l ++ '\n' :: joinLines (l2 :: ls) := rfl

/-- Splitting undoes joining, for a nonempty list of break-free lines. -/
theorem splitLines_joinLines :
    ∀ ls : List (List Char), ls ≠ [] → (∀ l ∈ ls, '\n' ∉ l) →
      splitLines (joinLines ls) = ls := by
  intro ls
  induction ls with
  | nil => intro h; exact absurd rfl h
  | cons l ls' ih =>
    intro _ hnn
    cases ls' with
    | nil => exact splitLines_eq_singleton l (hnn l (List.mem_cons_self _ _))
    | cons l2 ls'' =>
      rw [joinLines_cons_cons, splitLines_append_cons l _ (hnn l (List.mem_cons_self _ _)),
        ih (List.cons_ne_nil _ _) (fun x hx => hnn x (List.mem_cons_of_mem l hx))]

/-- Joining undoes splitting. -/
theorem joinLines_splitLines (s : List Char) : joinLines (splitLines s) = s := by
  induction s with
  | nil => rfl
  | cons c rest ih =>
    by_cases h : c = '\n'
    · rw [splitLines, if_pos h]
      cases hs : splitLines rest with
      | nil => exact absurd hs (splitLines_ne_nil rest)
      | cons a t =>
        rw [hs] at ih
        subst h
        rw [joinLines_cons_cons, ih, List.nil_append]
    · rw [splitLines, if_neg h]
      cases hs : splitLines rest with
      | nil => exact absurd hs (splitLines_ne_nil rest)
      | cons a t =>
        rw [hs] at ih
        cases t with
        | nil =>
          rw [joinLines_singleton] at ih
          rw [joinLines_singleton, ih]
        | cons b t' =>
          rw [joinLines_cons_cons] at ih ⊢
          rw [List.cons_append, ih]

/-- With a predicate that never ignores, the loop keeps every line. -/
theorem filterLoop_of_never_ignored (isIgn : List Char → Bool)
    (h : ∀ p, isIgn p = false) :
    ∀ ls : List (List Char), filterLoop isIgn false ls = ls := by
  intro ls
  induction ls with
  | nil => exact filterLoop_nil isIgn false
  | cons l rest ih =>
    cases hh : isHeader l with
    | true =>
      cases hm : matchHeader l with
      | some pr =>
        rw [filterLoop_cons_header_some isIgn false l rest pr.1 pr.2 hh (by rw [hm]),
          h _, if_neg (by simp), ih]
      | none =>
        rw [filterLoop_cons_header_none isIgn false l rest hh hm, if_neg (by simp), ih]
    | false =>
      rw [filterLoop_cons_nonheader isIgn false l rest hh, if_neg (by simp), ih]

/-- C2: for every raw diff and ignore predicate, the filtered output
contains no file section whose effective path is ignored, and its number
of file sections does not exceed the input's. -/
theorem filter_never_emits_ignored_section (isIgn : List Char → Bool) (d : List Char) :
    noIgnoredSection isIgn (filterIgnoredFilesFromDiff isIgn d) = true
    ∧ countSections (filterIgnoredFilesFromDiff isIgn d) ≤ countSections d := by
  have hsub := filterLoop_sublist isIgn false (splitLines d)
  have hkeep := mem_filterLoop_not_ignored isIgn false (splitLines d)
  have hgood : ∀ l ∈ filterLoop isIgn false (splitLines d),
      (match effectivePath l with
        | some fp => !isIgn fp
        | none => true) = true := by
    intro l hl
    cases hfp : effectivePath l with
    | some fp => simp [hkeep l hl fp hfp]
    | none => rfl
  unfold filterIgnoredFilesFromDiff
  cases hout : filterLoop isIgn false (splitLines d) with
  | nil =>
    constructor
    · rfl
    · exact Nat.zero_le _
  | cons a t =>
    have hnn : ∀ l ∈ filterLoop isIgn false (splitLines d), '\n' ∉ l :=
      fun l hl => not_newline_mem_splitLines d l (hsub.subset hl)
    rw [← hout]
    have hresplit : splitLines (joinLines (filterLoop isIgn false (splitLines d)))
        = filterLoop isIgn false (splitLines d) :=
      splitLines_joinLines _ (by rw [hout]; exact List.cons_ne_nil _ _) hnn
    constructor
    · rw [noIgnoredSection, hresplit]
      exact List.all_eq_true.mpr hgood
    · rw [countSections, countSections, hresplit]
      exact (hsub.filter _).length_le

/-- C3: when a file-section header parses as `a/<old> b/<new>`, the path
the filter queries against the ignore predicate is the destination path
unless it is the `/dev/null` sentinel, in which case it is the source
path; the whole section is dropped or kept according to that single
query. -/
theorem effective_path_preference (isIgn : List Char → Bool) (skip : Bool)
    (l : List Char) (rest : List (List Char)) (o n : List Char)
    (hh : isHeader l = true) (hm : matchHeader l = some (o, n)) :
    effectivePath l = some (if n ≠ devNull then n else o)
    ∧ filterLoop isIgn skip (l :: rest) =
        (if isIgn (if n ≠ devNull then n else o) then
          filterLoop isIgn true (dropSection rest)
        else l :: filterLoop isIgn false rest) := by
  constructor
  · rw [effectivePath, if_pos hh, hm]
  · exact filterLoop_cons_header_some isIgn skip l rest o n hh hm

/-- Evaluation of C3 on a concrete addition header and a concrete
deletion header (destination `/dev/null`). -/
theorem effective_path_preference_witness :
    (effectivePath "diff --git a/x b/y".toList =
      some (if "y".toList ≠ devNull then "y".toList else "x".toList)
    ∧ filterLoop (fun _ => false) false ["diff --git a/x b/y".toList] =
        (if (fun (_ : List Char) => false) (if "y".toList ≠ devNull then "y".toList else "x".toList) then
          filterLoop (fun _ => false) true (dropSection [])
        else "diff --git a/x b/y".toList :: filterLoop (fun _ => false) false []))
    ∧ (effectivePath "diff --git a/old b//dev/null".toList =
        some (if "/dev/null".toList ≠ devNull then "/dev/null".toList else "old".toList)) := by
  refine ⟨effective_path_preference (fun _ => false) false _ [] "x".toList "y".toList
    (by decide) (by decide), ?_⟩
  exact (effective_path_preference (fun _ => false) false _ []
    "old".toList "/dev/null".toList (by decide) (by decide)).1

/-- C4: filtering with an ignore predicate that returns false for every
path returns the raw diff unchanged. -/
theorem filter_identity_when_nothing_ignored (isIgn : List Char → Bool)
    (h : ∀ p, isIgn p = false) (d : List Char) :
    filterIgnoredFilesFromDiff isIgn d = d := by
  unfold filterIgnoredFilesFromDiff
  rw [filterLoop_of_never_ignored isIgn h, joinLines_splitLines]

/-- Evaluation of C4 on a concrete two-line diff. -/
theorem filter_identity_when_nothing_ignored_witness :
    filterIgnoredFilesFromDiff (fun _ => false) "diff --git a/x b/y\n+z".toList
      = "diff --git a/x b/y\n+z".toList :=
  filter_identity_when_nothing_ignored (fun _ => false) (fun _ => rfl) _

/-- C10: a `diff --git` line that the two-path regex cannot parse leaves
the skip state unchanged: with the skip flag set (the most recent
parseable section was ignored) it and the non-header lines after it are
dropped entirely; with the flag clear they pass through unchanged. -/
theorem unparsed_header_preserves_skip (isIgn : List Char → Bool)
    (l : List Char) (ns rest : List (List Char))
    (hh : isHeader l = true) (hm : matchHeader l = none)
    (hns : ∀ x ∈ ns, isHeader x = false) :
    filterLoop isIgn true (l :: (ns ++ rest)) = filterLoop isIgn true rest
    ∧ filterLoop isIgn false (l :: (ns ++ rest)) =
        l :: (ns ++ filterLoop isIgn false rest) := by
  have key : ∀ ms, (∀ x ∈ ms, isHeader x = false) →
      filterLoop isIgn true (ms ++ rest) = filterLoop isIgn true rest
      ∧ filterLoop isIgn false (ms ++ rest) = ms ++ filterLoop isIgn false rest := by
    intro ms
    induction ms with
    | nil => intro _; exact ⟨rfl, rfl⟩
    | cons m ms' ih =>
      intro hm'
      have hmh : isHeader m = false := hm' m (List.mem_cons_self _ _)
      have ih' := ih (fun x hx => hm' x (List.mem_cons_of_mem m hx))
      constructor
      · rw [List.cons_append, filterLoop_cons_nonheader isIgn true m _ hmh,
          if_pos rfl, ih'.1]
      · rw [List.cons_append, filterLoop_cons_nonheader isIgn false m _ hmh,
          if_neg (by simp), ih'.2, List.cons_append]
  constructor
  · rw [filterLoop_cons_header_none isIgn true l _ hh hm, if_pos rfl, (key ns hns).1]
  · rw [filterLoop_cons_header_none isIgn false l _ hh hm, if_neg (by simp),
      (key ns hns).2]

/-- Evaluation of C10 on a concrete unparseable header followed by a
body line, against both skip states. -/
theorem unparsed_header_preserves_skip_witness :
    filterLoop (fun _ => false) true
        ("diff --git a/x".toList :: (["+hello".toList] ++ [])) =
      filterLoop (fun _ => false) true []
    ∧ filterLoop (fun _ => false) false
        ("diff --git a/x".toList :: (["+hello".toList] ++ [])) =
      "diff --git a/x".toList ::
        (["+hello".toList] ++ filterLoop (fun _ => false) false []) :=
  unparsed_header_preserves_skip (fun _ => false) "diff --git a/x".toList
    ["+hello".toList] [] (by decide) (by decide) (by decide)

/-- C8: with colorize false the renderer returns its input — the
(filtered) diff text — unchanged: the shared rendering stage is the
identity, the secondary build's `formatDiffOutput` returns its argument
for every option bag with color disabled, and on the empty diff the root
build's `formatDiffOutput` returns the empty string regardless of
colorize. -/
theorem formatter_identity_when_uncolored :
    (∀ (cf : ColorFns) (d : List Char), renderDiff cf false d = d)
    ∧ (∀ (cf : ColorFns) (o : GitDiffOptions) (d : List Char),
        cliFormatDiffOutput cf { o with color := false } d = d)
    ∧ (∀ (cf : ColorFns) (isIgn : List Char → Bool) (o : GitDiffOptions),
        formatDiffOutput cf isIgn o [] = []) := by
  refine ⟨fun cf d => rfl, fun cf o d => rfl, fun cf isIgn o => ?_⟩
  have hfil : filterIgnoredFilesFromDiff isIgn [] = [] := by
    unfold filterIgnoredFilesFromDiff
    have hsp : splitLines ([] : List Char) = [[]] := rfl
    rw [hsp, filterLoop_cons_nonheader isIgn false [] [] (by decide),
      if_neg (by simp), filterLoop_nil, joinLines_singleton]
  unfold formatDiffOutput
  rw [hfil]
  cases o.color with
  | false => rfl
  | true => rfl

/-- C6 counterexample: no short-status line is ever tallied under more
than one category — the classifier is an if/else-if chain, so the first
matching state character wins and all later categories are skipped. -/
theorem multi_category_tally_impossible :
    ¬ ∃ line : String, 2 ≤ countCategories (tally [line]) := by
  rintro ⟨l, hl⟩
  have hb : countCategories (tally [l]) ≤ 1 := by
    show countCategories (tallyLine zeroCounts l) ≤ 1
    unfold tallyLine
    dsimp only
    split_ifs <;> decide
  omega

/-- C6 amended: the classifier checks for the presence of a state
character within the two-character code rather than an exact match, but
the else-if chain tallies every line under at most one category (the
first match in the order modified, added, deleted, renamed, unmerged,
untracked); a line such as "AD f" whose two characters indicate two
different kinds of changes is counted only under the first one. -/
theorem single_line_single_category :
    (∀ line : String, countCategories (tally [line]) ≤ 1)
    ∧ tally ["AD f"] = { zeroCounts with added := 1 } := by
  constructor
  · intro l
    show countCategories (tallyLine zeroCounts l) ≤ 1
    unfold tallyLine
    dsimp only
    split_ifs <;> decide
  · decide

/-- C7: a short-status line whose two leading characters are exactly the
sentinel "??" is classified as untracked with the path taken from the
fourth character onward, and only the untracked counter — separate from
the five tracked-change counters — is incremented. -/
theorem untracked_sentinel_classification (cc : ChangeCounts) (line : String)
    (h : line.take 2 = "??") :
    classifyStatusLine line = some (.untracked, line.drop 3)
    ∧ tallyLine cc line = { cc with untracked := cc.untracked + 1 } := by
  have hM : statusIncludes (line.take 2) 'M' = false := by rw [h]; decide
  have hA : statusIncludes (line.take 2) 'A' = false := by rw [h]; decide
  have hD : statusIncludes (line.take 2) 'D' = false := by rw [h]; decide
  have hR : statusIncludes (line.take 2) 'R' = false := by rw [h]; decide
  have hU : statusIncludes (line.take 2) 'U' = false := by rw [h]; decide
  have hq : (line.take 2 == "??") = true := by rw [h]; decide
  constructor
  · simp [classifyStatusLine, hM, hA, hD, hR, hU, hq]
  · simp [tallyLine, hM, hA, hD, hR, hU, hq]

/-- Evaluation of C7 on the spec's example line. -/
theorem untracked_sentinel_classification_witness :
    classifyStatusLine "?? newfile.txt" = some (.untracked, "newfile.txt")
    ∧ tallyLine zeroCounts "?? newfile.txt" =
        { zeroCounts with untracked := zeroCounts.untracked + 1 } :=
  untracked_sentinel_classification zeroCounts "?? newfile.txt" (by decide)

/-- C9: a non-numeric context-line option such as "abc" resolves, via the
action wrapper around `parseInt`, to the default 3 — the total function
`resolveContext` never fails — and the synthesized command for such an
invocation carries `-U3`. -/
theorem context_fallback_default :
    resolveContext "abc" = 3
    ∧ buildDiffCommand { context := some (resolveContext "abc") } =
        "git diff -U3 --ignore-submodules=all" := by
  constructor
  · decide
  · decide

end Gitsum
